import Mathlib

/-!
Verification of the PR review comment manager (discuss.ts).

This file gives a shallow embedding of the reconciliation core of the
comment manager: the single-table comment store, the upsert merge rule,
the auto-unsnooze pass, the resolve and unresolve mutations with their
stale-thread handling, the priority and severity marker parsing, the
post-sync summary with its critical preview, the thread metadata fetch,
and the outdated-verification heuristic.  The SQLite tables are modelled
as Lean lists, SQL statements as the corresponding list operations, and
network responses as explicit data passed to the functions that consume
them.  Definitions keep the names of the TypeScript functions they embed.
-/

/-- Substring containment, modelling the JavaScript String.includes test
used by parseComment on the first line of a comment body. -/
def strContains (s pat : String) : Bool := decide (pat.toList <:+: s.toList)

/-- The priority marker table (PRIORITY_MARKERS in discuss.ts), in the
iteration order of Object.entries. -/
def PRIORITY_MARKERS : List (String × String) :=
  [("⚠️ Potential issue", "issue"),
   ("🛠️ Refactor suggestion", "refactor"),
   ("🧹 Nitpick", "nitpick")]

/-- The severity marker table (SEVERITY_MARKERS in discuss.ts). -/
def SEVERITY_MARKERS : List (String × String) :=
  [("🔴 Critical", "critical"),
   ("🟠 Major", "major"),
   ("🟡 Minor", "minor"),
   ("🔵 Trivial", "trivial")]

/-- Characters of a line up to the first newline. -/
def takeUntilNewline : List Char → List Char
  | [] => []
  | ch :: cs => if ch = '\n' then [] else ch :: takeUntilNewline cs

/-- First line of a body: body.split("\n")[0] with empty-string
fallback, that is, the characters before the first newline. -/
def firstLine (body : String) : String := String.mk (takeUntilNewline body.toList)

/-- The marker loop of parseComment: scan the table in order and return
the value of the first marker contained in the line, defaulting to
unknown.  List.find? is the for-loop with break of the source. -/
def findMarkerValue (markers : List (String × String)) (line : String) : String :=
  match markers.find? (fun p => strContains line p.1) with
  | some p => p.2
  | none => "unknown"

/-- parseComment from discuss.ts: priority and severity are matched only
against the first line of the body. -/
def parseComment (body : String) : String × String :=
  (findMarkerValue PRIORITY_MARKERS (firstLine body),
   findMarkerValue SEVERITY_MARKERS (firstLine body))

/-- One row of the comments table. -/
structure Comment where
  id : Nat
  path : String
  line : Option Int
  body : String
  priority : String
  severity : String
  outdated : Bool
  created_at : String
  updated_at : String
  user : String
  first_seen : String
  thread_id : Option String
  github_resolved : Bool
  resolved_commit : Option String
  waiting_reply : Bool
  snoozed_reply_count : Nat
  notes : Option String
deriving DecidableEq

/-- One row of the replies table. -/
structure Reply where
  id : Nat
  in_reply_to_id : Nat
  body : String
  user : String
  created_at : String
  updated_at : String
deriving DecidableEq

/-- Per-comment thread metadata (the ThreadInfo interface).  The
threadId is an Option because upsertComment substitutes a null threadId
when a comment has no entry in the fetched metadata. -/
structure ThreadInfo where
  threadId : Option String
  isResolved : Bool
  isOutdated : Bool
deriving DecidableEq

/-- The provider fields of a freshly fetched top-level review comment
that upsertComment reads. -/
structure FetchedComment where
  id : Nat
  path : String
  line : Option Int
  body : String
  created_at : String
  updated_at : String
  user : String
deriving DecidableEq

/-- The local SQLite database: a comments table and a replies table. -/
structure Store where
  comments : List Comment
  replies : List Reply
deriving DecidableEq

/-- SELECT * FROM comments WHERE id equals the argument. -/
def findComment (s : Store) (cid : Nat) : Option Comment :=
  s.comments.find? (fun c => c.id == cid)

/-- UPDATE of every comments row whose id matches (at most one, since id
is the primary key). -/
def updateWhere (L : List Comment) (cid : Nat) (g : Comment → Comment) : List Comment :=
  L.map (fun c => if c.id == cid then g c else c)

/-- SELECT COUNT(*) FROM replies WHERE in_reply_to_id equals the argument. -/
def countReplies (replies : List Reply) (cid : Nat) : Nat :=
  (replies.filter (fun r => r.in_reply_to_id == cid)).length

/-- getReplyCount from discuss.ts. -/
def getReplyCount (s : Store) (cid : Nat) : Nat := countReplies s.replies cid

/-- The fallback thread info of upsertComment when the fetched metadata
has no entry for the comment id. -/
def defaultThreadInfo : ThreadInfo :=
  { threadId := none, isResolved := false, isOutdated := false }

/-- The row written by the INSERT OR REPLACE of upsertComment.  The
COALESCE subselects against the existing row become Option operations on
the result of the id lookup: first_seen, waiting_reply and
snoozed_reply_count keep the existing value with a fallback, while
resolved_commit and notes are carried over as plain subselects (NULL
when the row is new).  All other columns come from the fresh fetch. -/
def upsertRow (existing : Option Comment) (c : FetchedComment)
    (tinfo : Option ThreadInfo) (now : String) : Comment :=
  let pr := parseComment c.body
  let info := tinfo.getD defaultThreadInfo
  { id := c.id
    path := c.path
    line := c.line
    body := c.body
    priority := pr.1
    severity := pr.2
    outdated := info.isOutdated
    created_at := c.created_at
    updated_at := c.updated_at
    user := c.user
    first_seen := (existing.map Comment.first_seen).getD now
    thread_id := info.threadId
    github_resolved := info.isResolved
    resolved_commit := existing.bind Comment.resolved_commit
    waiting_reply := (existing.map Comment.waiting_reply).getD false
    snoozed_reply_count := (existing.map Comment.snoozed_reply_count).getD 0
    notes := existing.bind Comment.notes }

/-- upsertComment from discuss.ts.  INSERT OR REPLACE replaces the row
in place when the id exists and appends a new row otherwise; the Bool is
the wasNew result. -/
def upsertComment (s : Store) (c : FetchedComment) (tinfo : Option ThreadInfo)
    (now : String) : Store × Bool :=
  let existing := findComment s c.id
  let row := upsertRow existing c tinfo now
  match existing with
  | some _ => ({ s with comments := updateWhere s.comments c.id (fun _ => row) }, false)
  | none => ({ s with comments := s.comments ++ [row] }, true)

/-- upsertReply from discuss.ts: unconditional overwrite-or-insert by id. -/
def upsertReply (s : Store) (r : Reply) : Store :=
  { s with replies :=
      if (s.replies.find? (fun x => x.id == r.id)).isSome then
        s.replies.map (fun x => if x.id == r.id then r else x)
      else s.replies ++ [r] }

/-- The UPDATE that clears a snoozed comment: waiting_reply to 0 and
snoozed_reply_count to 0 in the same statement. -/
def unsnoozeRow (c : Comment) : Comment :=
  { c with waiting_reply := false, snoozed_reply_count := 0 }

/-- getSnoozedComments from discuss.ts: the rows with waiting_reply = 1. -/
def getSnoozedComments (s : Store) : List Comment :=
  s.comments.filter (fun c => c.waiting_reply)

/-- One iteration of the processAutoUnsnooze loop: recompute the current
reply count of the snapshot entry from the replies table (which the pass
never writes) and clear the row when the count strictly exceeds the
recorded snoozed_reply_count. -/
def autoUnsnoozeStep (replies : List Reply) (acc : List Comment × Nat)
    (sn : Comment) : List Comment × Nat :=
  if sn.snoozed_reply_count < countReplies replies sn.id then
    (updateWhere acc.1 sn.id unsnoozeRow, acc.2 + 1)
  else acc

/-- processAutoUnsnooze from discuss.ts: fold the loop body over the
snapshot of currently snoozed comments, returning the updated store and
the number of auto-unsnoozed comments. -/
def processAutoUnsnooze (s : Store) : Store × Nat :=
  let r := (getSnoozedComments s).foldl (autoUnsnoozeStep s.replies) (s.comments, 0)
  ({ comments := r.1, replies := s.replies }, r.2)

/-- snoozeComment from discuss.ts (also the snooze performed after
posting a reply): waiting_reply to 1 and snoozed_reply_count to the
current reply count, in one statement. -/
def snoozeComment (s : Store) (cid : Nat) : Store :=
  let currentReplyCount := getReplyCount s cid
  let g := fun c => { c with waiting_reply := true, snoozed_reply_count := currentReplyCount }
  { s with comments := updateWhere s.comments cid g }

/-- unsnoozeComment from discuss.ts. -/
def unsnoozeComment (s : Store) (cid : Nat) : Store :=
  { s with comments := updateWhere s.comments cid unsnoozeRow }

/-- unsnoozeAll from discuss.ts: UPDATE ... WHERE waiting_reply = 1. -/
def unsnoozeAll (s : Store) : Store :=
  { s with comments := s.comments.map (fun c => if c.waiting_reply then unsnoozeRow c else c) }

/-- updateCommentField for the notes column. -/
def updateNotes (s : Store) (cid : Nat) (v : Option String) : Store :=
  { s with comments := updateWhere s.comments cid (fun c => { c with notes := v }) }

/-- updateCommentField for the resolved_commit column. -/
def setResolvedCommit (s : Store) (cid : Nat) (v : Option String) : Store :=
  { s with comments := updateWhere s.comments cid (fun c => { c with resolved_commit := v }) }

/-- clearStaleThreadId from discuss.ts: set thread_id to NULL. -/
def clearStaleThreadId (s : Store) (cid : Nat) : Store :=
  { s with comments := updateWhere s.comments cid (fun c => { c with thread_id := none }) }

/-- Outcome of the GraphQL resolve or unresolve mutation as classified
by executeGraphQLMutation: true, the string stale, or false. -/
inductive MutationResult
  | success
  | stale
  | failed
deriving DecidableEq

/-- The parts of a GraphQL mutation response that
executeGraphQLMutation inspects: the isResolved field of the returned
thread payload when one is present, and the type strings of the errors
array (taken from the response body, or from the stdout of a thrown
command error, which the source classifies identically). -/
structure GraphQLResponse where
  thread : Option Bool
  errors : List String
deriving DecidableEq

/-- The NOT_FOUND test of executeGraphQLMutation over the errors array. -/
def hasNotFoundError (errors : List String) : Bool :=
  errors.any (fun e => e == "NOT_FOUND")

/-- executeGraphQLMutation from discuss.ts: an empty thread id is
rejected up front; a returned thread whose isResolved matches the
expectation is success; otherwise a NOT_FOUND-classed error means the
thread is stale, and anything else is a plain failure. -/
def executeGraphQLMutation (threadId : String) (expectedResolved : Bool)
    (resp : GraphQLResponse) : MutationResult :=
  if threadId == "" then .failed
  else
    match resp.thread with
    | some isRes =>
      if isRes == expectedResolved then .success
      else if hasNotFoundError resp.errors then .stale
      else .failed
    | none => if hasNotFoundError resp.errors then .stale else .failed

/-- The user-visible outcome of a resolve or unresolve command. -/
inductive ResolveOutcome
  | notFoundLocally
  | missingThreadId
  | staleThread
  | failedMutation
  | resolvedOk
deriving DecidableEq

/-- resolveComment from discuss.ts, up to the re-sync that follows a
successful mutation (a separate fetch cycle) and without the optional
reply posting.  A missing row or a null thread_id aborts before any
mutation is attempted; a stale mutation clears the cached thread id; any
other failure leaves the store untouched; success records the resolved
commit, defaulting to HEAD. -/
def resolveComment (s : Store) (cid : Nat) (commit : Option String)
    (resp : GraphQLResponse) : ResolveOutcome × Store :=
  match findComment s cid with
  | none => (.notFoundLocally, s)
  | some c =>
    match c.thread_id with
    | none => (.missingThreadId, s)
    | some tid =>
      match executeGraphQLMutation tid true resp with
      | .stale => (.staleThread, clearStaleThreadId s cid)
      | .failed => (.failedMutation, s)
      | .success => (.resolvedOk, setResolvedCommit s cid (some (commit.getD "HEAD")))

/-- unresolveComment from discuss.ts, up to the re-sync that follows a
successful mutation.  Success clears resolved_commit. -/
def unresolveComment (s : Store) (cid : Nat) (resp : GraphQLResponse) :
    ResolveOutcome × Store :=
  match findComment s cid with
  | none => (.notFoundLocally, s)
  | some c =>
    match c.thread_id with
    | none => (.missingThreadId, s)
    | some tid =>
      match executeGraphQLMutation tid false resp with
      | .stale => (.staleThread, clearStaleThreadId s cid)
      | .failed => (.failedMutation, s)
      | .success => (.resolvedOk, setResolvedCommit s cid none)

/-- Process exit status of each resolve or unresolve outcome in the
source: every non-success path calls process.exit(1). -/
def resolveExitCode : ResolveOutcome → Nat
  | .resolvedOk => 0
  | _ => 1

/-- The pending filter of the post-fetch summary and of the critical
preview query: unresolved on GitHub and not snoozed, severity critical. -/
def isPendingCritical (c : Comment) : Bool :=
  c.severity == "critical" && !c.github_resolved && !c.waiting_reply

/-- Lexicographic comparison of char lists, the collation behind the
ORDER BY path of the preview query. -/
def charListLe : List Char → List Char → Bool
  | [], _ => true
  | _ :: _, [] => false
  | a :: as, b :: bs => if a < b then true else if b < a then false else charListLe as bs

/-- String comparison for ORDER BY path. -/
def pathLe (a b : Comment) : Bool := charListLe a.path.toList b.path.toList

/-- Insertion step of the ORDER BY path sort. -/
def insertByPath (c : Comment) : List Comment → List Comment
  | [] => [c]
  | x :: xs => if pathLe c x then c :: x :: xs else x :: insertByPath c xs

/-- ORDER BY path of the critical preview query, as a stable insertion
sort. -/
def orderByPath : List Comment → List Comment
  | [] => []
  | x :: xs => insertByPath x (orderByPath xs)

/-- The content of the critical preview block printed by
printCriticalPreview: the total pending critical count it is handed, the
items of the LIMIT 5 query, and the trailing more-items note that is
printed exactly when the total exceeds 5. -/
structure CriticalPreview where
  total : Nat
  items : List Comment
  moreNote : Option Nat
deriving DecidableEq

/-- printCriticalPreview from discuss.ts: the LIMIT 5 slice of the
pending critical comments ordered by path, plus the note of how many
more exist when criticalCount is above 5. -/
def printCriticalPreview (s : Store) (criticalCount : Nat) : CriticalPreview :=
  { total := criticalCount
    items := (orderByPath (s.comments.filter isPendingCritical)).take 5
    moreNote := if 5 < criticalCount then some (criticalCount - 5) else none }

/-- printFetchSummary from discuss.ts, restricted to the critical
preview decision: the per-severity pending aggregate yields the pending
critical count, and the preview is printed exactly when it is positive. -/
def printFetchSummary (s : Store) : Option CriticalPreview :=
  let criticalCount := (s.comments.filter isPendingCritical).length
  if 0 < criticalCount then some (printCriticalPreview s criticalCount) else none

/-- One comment node of a fetched GraphQL review thread. -/
structure ThreadComment where
  databaseId : Nat
  outdated : Bool
deriving DecidableEq

/-- One review thread node of the paginated GraphQL fetch. -/
structure ReviewThread where
  id : String
  isResolved : Bool
  isOutdated : Bool
  comments : List ThreadComment
deriving DecidableEq

/-- Map.set on the comment-id keyed metadata map: overwrite in place
when the key exists, append otherwise. -/
def mapSet (m : List (Nat × ThreadInfo)) (k : Nat) (v : ThreadInfo) :
    List (Nat × ThreadInfo) :=
  if m.any (fun p => p.1 == k) then m.map (fun p => if p.1 == k then (k, v) else p)
  else m ++ [(k, v)]

/-- fetchThreadMetadata from discuss.ts: for every thread of every page
and for every comment node inside it, record the owning thread id, the
resolved state of the thread, and the per-comment outdated flag.
Pagination only concatenates thread pages, so the input is the full
thread list. -/
def fetchThreadMetadata (threads : List ReviewThread) : List (Nat × ThreadInfo) :=
  threads.foldl
    (fun acc t => t.comments.foldl
      (fun acc2 c => mapSet acc2 c.databaseId
        { threadId := some t.id, isResolved := t.isResolved, isOutdated := c.outdated })
      acc)
    []

/-- The resolvedCount of the fetch summary: entries of the metadata map
whose thread is resolved. -/
def resolvedCount (m : List (Nat × ThreadInfo)) : Nat :=
  (m.filter (fun p => p.2.isResolved)).length

/-- The outdatedCount of the fetch summary: outdated entries of the
metadata map. -/
def outdatedCount (m : List (Nat × ThreadInfo)) : Nat :=
  (m.filter (fun p => p.2.isOutdated)).length

/-- Number of distinct values in a list of optional thread ids. -/
def countDistinct : List (Option String) → Nat
  | [] => 0
  | x :: xs => (if x ∈ xs then 0 else 1) + countDistinct xs

/-- Formalisation of the words of the spec for comparison: the number
of distinct threads the fetched metadata reports as resolved. -/
def distinctResolvedThreads (m : List (Nat × ThreadInfo)) : Nat :=
  countDistinct ((m.filter (fun p => p.2.isResolved)).map (fun p => p.2.threadId))

/-- The metadata entries of the fetched threads in fetch order, one per
comment node, before the Map.set keyed insertion: when every databaseId
is distinct the keyed insertion produces exactly this list. -/
def flatEntries (threads : List ReviewThread) : List (Nat × ThreadInfo) :=
  (threads.map (fun t => t.comments.map (fun c =>
    (c.databaseId,
      { threadId := some t.id, isResolved := t.isResolved,
        isOutdated := c.outdated : ThreadInfo })))).flatten

/-- The gap reported by verifyOutdated, in minutes or in whole hours. -/
inductive TimeGap
  | minutes (m : Nat)
  | hours (h : Nat)
deriving DecidableEq

/-- The modified-after-comment verdict of verifyOutdated. -/
inductive ModFlag
  | likelyAddressed (gap : TimeGap)
  | notModifiedAfter
  | unknownModTime
deriving DecidableEq

/-- The modification heuristic of verifyOutdated: the file is flagged
when its last-modified time is strictly after the comment time; the gap
is floored to minutes by the two divisions of the source and printed in
minutes below 60 and in whole hours otherwise.  Timestamps are
milliseconds since the epoch. -/
def classifyModification (fileModTime : Option Nat) (commentTime : Nat) : ModFlag :=
  match fileModTime with
  | some m =>
    if commentTime < m then
      let timeDiff := (m - commentTime) / 1000 / 60
      ModFlag.likelyAddressed
        (if timeDiff < 60 then TimeGap.minutes timeDiff else TimeGap.hours (timeDiff / 60))
    else ModFlag.notModifiedAfter
  | none => ModFlag.unknownModTime

/-- The possible results of the verify-outdated command. -/
inductive VerifyResult
  | notFoundLocally
  | alreadyResolved
  | fileDeleted
  | checked (flag : ModFlag)
deriving DecidableEq

/-- verifyOutdated from discuss.ts: abort when the comment is missing,
return early when it is already resolved, report a deleted file, and
otherwise classify the modification time against the parsed first_seen
timestamp.  The filesystem answers and the ISO date parser are passed in
explicitly. -/
def verifyOutdated (s : Store) (fileExistsNow : Bool) (fileModTime : Option Nat)
    (parseTime : String → Nat) (cid : Nat) : VerifyResult :=
  match findComment s cid with
  | none => .notFoundLocally
  | some c =>
    if c.github_resolved then .alreadyResolved
    else if !fileExistsNow then .fileDeleted
    else .checked (classifyModification fileModTime (parseTime c.first_seen))

/-- The arguments of one upsertComment call, for reasoning about
sequences of fetch cycles. -/
structure UpsertArgs where
  c : FetchedComment
  tinfo : Option ThreadInfo
  now : String
deriving DecidableEq

/-- Apply a sequence of upserts to the store. -/
def applyUpserts (s : Store) (ops : List UpsertArgs) : Store :=
  ops.foldl (fun st op => (upsertComment st op.c op.tinfo op.now).1) s

/-- The local-state invariant of the snooze machinery: a comment that is
not waiting for a reply records a zero snoozed reply count. -/
def SnoozeInvariant (s : Store) : Prop :=
  ∀ c ∈ s.comments, c.waiting_reply = false → c.snoozed_reply_count = 0

/-- Pointwise effect of one auto-unsnooze pass on a row: a snoozed
comment whose current reply count strictly exceeds the recorded
snoozed_reply_count is cleared, every other row is untouched. -/
def autoUnsnoozeRow (replies : List Reply) (c : Comment) : Comment :=
  if c.waiting_reply && decide (c.snoozed_reply_count < countReplies replies c.id) then
    unsnoozeRow c
  else c

/-- A stored comment used by the witness theorems: snoozed with one
recorded reply, annotated with a note and a resolved commit. -/
def sampleExisting : Comment :=
  { id := 100, path := "a.ts", line := some 3, body := "old body",
    priority := "unknown", severity := "unknown", outdated := false,
    created_at := "2024-01-01T00:00:00Z", updated_at := "2024-01-01T00:00:00Z",
    user := "coderabbit", first_seen := "2024-01-02T00:00:00Z",
    thread_id := some "T1", github_resolved := false,
    resolved_commit := some "abc123", waiting_reply := true,
    snoozed_reply_count := 1, notes := some "a note" }

/-- Fresh provider data for the same comment id, used by witnesses. -/
def sampleFetched : FetchedComment :=
  { id := 100, path := "a.ts", line := some 3, body := "fresh body",
    created_at := "2024-01-01T00:00:00Z", updated_at := "2024-01-05T00:00:00Z",
    user := "coderabbit" }

/-- Fresh thread metadata for the witnesses. -/
def sampleThreadInfo : ThreadInfo :=
  { threadId := some "T2", isResolved := true, isOutdated := true }

/-- A reply row under comment 100, used by witnesses. -/
def sampleReply (rid : Nat) : Reply :=
  { id := rid, in_reply_to_id := 100, body := "a reply", user := "dev",
    created_at := "2024-01-03T00:00:00Z", updated_at := "2024-01-03T00:00:00Z" }

/-- Witness store: the snoozed comment together with two replies, so the
current reply count exceeds the recorded snoozed count. -/
def sampleStore : Store :=
  { comments := [sampleExisting], replies := [sampleReply 7, sampleReply 8] }

/-- Witness store with an empty database. -/
def emptyStore : Store := { comments := [], replies := [] }

/-- A comment whose cached thread id is null, used by witnesses. -/
def sampleNoThread : Comment := { sampleExisting with id := 200, thread_id := none }

/-- Witness store holding only the thread-less comment. -/
def sampleStoreNoThread : Store := { comments := [sampleNoThread], replies := [] }

/-- A GraphQL response carrying a NOT_FOUND-classed error and no thread
payload, used by witnesses. -/
def staleResponse : GraphQLResponse := { thread := none, errors := ["NOT_FOUND"] }

/-- A GraphQL response for a generic mutation failure, used by
witnesses. -/
def failResponse : GraphQLResponse := { thread := none, errors := ["INTERNAL"] }

/-- A pending critical comment, used by the preview witness. -/
def criticalComment (i : Nat) : Comment :=
  { sampleExisting with
    id := i
    severity := "critical"
    waiting_reply := false
    snoozed_reply_count := 0 }

/-- Witness store with six pending critical comments. -/
def criticalStore : Store :=
  { comments := [criticalComment 1, criticalComment 2, criticalComment 3,
      criticalComment 4, criticalComment 5, criticalComment 6], replies := [] }

/-- Fetched review threads used by the metadata counterexample: one
resolved thread covering two comments, one unresolved thread covering
one outdated comment. -/
def sampleThreads : List ReviewThread :=
  [{ id := "T1", isResolved := true, isOutdated := false,
     comments := [{ databaseId := 1, outdated := false }, { databaseId := 2, outdated := true }] },
   { id := "T2", isResolved := false, isOutdated := true,
     comments := [{ databaseId := 3, outdated := true }] }]

/-! ### Helper lemmas about the keyed list operations -/

theorem find?_updateWhere_self (L : List Comment) (cid : Nat) (g : Comment → Comment)
    (hg : ∀ c, c.id = cid → (g c).id = cid) :
    (updateWhere L cid g).find? (fun c => c.id == cid) =
      (L.find? (fun c => c.id == cid)).map g := by
  induction L with
  | nil => rfl
  | cons a as ih =>
    simp only [updateWhere, List.map_cons]
    by_cases h : a.id = cid
    · rw [if_pos (by simpa using h)]
      rw [List.find?_cons_of_pos _ (by simpa using hg a h),
        List.find?_cons_of_pos _ (by simpa using h)]
      rfl
    · rw [if_neg (by simpa using h)]
      rw [List.find?_cons_of_neg _ (by simpa using h),
        List.find?_cons_of_neg _ (by simpa using h)]
      exact ih

theorem find?_updateWhere_ne (L : List Comment) (cid j : Nat) (g : Comment → Comment)
    (hg : ∀ c, c.id = cid → (g c).id = cid) (hne : j ≠ cid) :
    (updateWhere L cid g).find? (fun c => c.id == j) = L.find? (fun c => c.id == j) := by
  induction L with
  | nil => rfl
  | cons a as ih =>
    simp only [updateWhere, List.map_cons]
    by_cases h : a.id = cid
    · rw [if_pos (by simpa using h)]
      have h1 : ¬((g a).id = j) := by rw [hg a h]; exact fun hj => hne hj.symm
      have h2 : ¬(a.id = j) := by rw [h]; exact fun hj => hne hj.symm
      rw [List.find?_cons_of_neg _ (by simpa using h1),
        List.find?_cons_of_neg _ (by simpa using h2)]
      exact ih
    · rw [if_neg (by simpa using h)]
      by_cases hj : a.id = j
      · rw [List.find?_cons_of_pos _ (by simpa using hj),
          List.find?_cons_of_pos _ (by simpa using hj)]
      · rw [List.find?_cons_of_neg _ (by simpa using hj),
          List.find?_cons_of_neg _ (by simpa using hj)]
        exact ih

theorem findComment_upsert (s : Store) (c : FetchedComment) (tinfo : Option ThreadInfo)
    (now : String) (cid : Nat) :
    findComment (upsertComment s c tinfo now).1 cid =
      if cid = c.id then some (upsertRow (findComment s c.id) c tinfo now)
      else findComment s cid := by
  unfold upsertComment
  cases hex : findComment s c.id with
  | some e =>
    simp only [findComment] at hex ⊢
    by_cases h : cid = c.id
    · subst h
      rw [if_pos rfl]
      have hu := find?_updateWhere_self s.comments c.id
        (fun _ => upsertRow (some e) c tinfo now) (fun _ _ => rfl)
      rw [hu, hex]
      rfl
    · rw [if_neg h]
      exact find?_updateWhere_ne _ _ _ _ (fun _ _ => rfl) h
  | none =>
    simp only [findComment] at hex ⊢
    by_cases h : cid = c.id
    · subst h
      rw [if_pos rfl, List.find?_append, hex]
      simp [upsertRow, hex]
    · rw [if_neg h, List.find?_append]
      cases hf : s.comments.find? (fun x => x.id == cid) with
      | some e2 => simp
      | none =>
        simp only [Option.or_none, Option.none_or]
        rw [List.find?_cons_of_neg, List.find?_nil]
        simp [upsertRow]
        exact fun hc => h hc.symm

theorem applyUpserts_preserves_first_seen (cid : Nat) (now : String) :
    ∀ (ops : List UpsertArgs) (s : Store),
      (findComment s cid).map Comment.first_seen = some now →
      (findComment (applyUpserts s ops) cid).map Comment.first_seen = some now := by
  intro ops
  induction ops with
  | nil => intro s h; exact h
  | cons op rest ih =>
    intro s h
    simp only [applyUpserts, List.foldl_cons]
    have step : (findComment (upsertComment s op.c op.tinfo op.now).1 cid).map
        Comment.first_seen = some now := by
      rw [findComment_upsert]
      by_cases hc : cid = op.c.id
      · rw [if_pos hc]
        cases hfe : findComment s op.c.id with
        | none =>
          rw [hc, hfe] at h
          simp at h
        | some e =>
          rw [hc, hfe] at h
          simp only [upsertRow, Option.map_some, Option.map, Option.getD] at h ⊢
          simpa using h
      · rw [if_neg hc]
        exact h
    exact ih _ step

/-- C2: the first_seen field is set to the current timestamp when a
comment id is first inserted, and it is unchanged by any number of
subsequent upserts (with arbitrary fresh data, for this or other ids). -/
theorem first_seen_immutable_across_upserts
    (s : Store) (c : FetchedComment) (tinfo : Option ThreadInfo) (now : String)
    (ops : List UpsertArgs) (habs : findComment s c.id = none) :
    (findComment (upsertComment s c tinfo now).1 c.id).map Comment.first_seen = some now ∧
      (findComment (applyUpserts (upsertComment s c tinfo now).1 ops) c.id).map
        Comment.first_seen = some now := by
  have base : (findComment (upsertComment s c tinfo now).1 c.id).map
      Comment.first_seen = some now := by
    rw [findComment_upsert, if_pos rfl, habs]
    simp [upsertRow]
  exact ⟨base, applyUpserts_preserves_first_seen c.id now ops _ base⟩

/-- Witness for C2: inserting comment 100 into the empty store stamps
first_seen with the insertion time, and a further upsert of the same id
with fresh data does not change it. -/
theorem first_seen_immutable_witness :
    findComment emptyStore sampleFetched.id = none ∧
      (findComment (applyUpserts
          (upsertComment emptyStore sampleFetched none "2024-01-02T00:00:00Z").1
          [{ c := sampleFetched, tinfo := some sampleThreadInfo,
             now := "2024-03-01T00:00:00Z" }]) sampleFetched.id).map
        Comment.first_seen = some "2024-01-02T00:00:00Z" :=
  ⟨by decide, (first_seen_immutable_across_upserts emptyStore sampleFetched none
      "2024-01-02T00:00:00Z"
      [{ c := sampleFetched, tinfo := some sampleThreadInfo,
         now := "2024-03-01T00:00:00Z" }] (by decide)).2⟩

/-- C1: re-upserting an already stored comment with fresh provider data
keeps notes, resolved_commit, waiting_reply and snoozed_reply_count from
the existing row, while body, updated_at, outdated, thread_id and
github_resolved take the values of the fresh fetch. -/
theorem upsert_preserves_local_annotations
    (s : Store) (c : FetchedComment) (tinfo : Option ThreadInfo) (now : String)
    (e : Comment) (hex : findComment s c.id = some e) (hw : e.waiting_reply = true) :
    ∃ row, findComment (upsertComment s c tinfo now).1 c.id = some row ∧
      row.notes = e.notes ∧
      row.resolved_commit = e.resolved_commit ∧
      row.waiting_reply = true ∧
      row.snoozed_reply_count = e.snoozed_reply_count ∧
      row.body = c.body ∧
      row.updated_at = c.updated_at ∧
      row.outdated = (tinfo.getD defaultThreadInfo).isOutdated ∧
      row.thread_id = (tinfo.getD defaultThreadInfo).threadId ∧
      row.github_resolved = (tinfo.getD defaultThreadInfo).isResolved := by
  refine ⟨upsertRow (findComment s c.id) c tinfo now, ?_, ?_, ?_, ?_, ?_, ?_, ?_, ?_, ?_, ?_⟩
  · rw [findComment_upsert, if_pos rfl]
  all_goals simp [upsertRow, hex, hw]

/-- Witness for C1: re-upserting comment 100 with fresh body and thread
metadata keeps its note, resolved commit and snooze state while
refreshing the provider fields. -/
theorem upsert_preserves_local_annotations_witness :
    findComment sampleStore sampleFetched.id = some sampleExisting ∧
      sampleExisting.waiting_reply = true ∧
      ∃ row, findComment
          (upsertComment sampleStore sampleFetched (some sampleThreadInfo)
            "2024-02-01T00:00:00Z").1 sampleFetched.id = some row ∧
        row.notes = sampleExisting.notes ∧
        row.resolved_commit = sampleExisting.resolved_commit ∧
        row.waiting_reply = true ∧
        row.snoozed_reply_count = sampleExisting.snoozed_reply_count ∧
        row.body = sampleFetched.body ∧
        row.updated_at = sampleFetched.updated_at ∧
        row.outdated = ((some sampleThreadInfo).getD defaultThreadInfo).isOutdated ∧
        row.thread_id = ((some sampleThreadInfo).getD defaultThreadInfo).threadId ∧
        row.github_resolved = ((some sampleThreadInfo).getD defaultThreadInfo).isResolved :=
  ⟨by decide, by decide,
    upsert_preserves_local_annotations sampleStore sampleFetched (some sampleThreadInfo)
      "2024-02-01T00:00:00Z" sampleExisting (by decide) (by decide)⟩

theorem autoUnsnoozeFold_skip (replies : List Reply) :
    ∀ (snap : List Comment) (M : List Comment) (n : Nat),
      (∀ sn ∈ snap, ¬ sn.snoozed_reply_count < countReplies replies sn.id) →
      snap.foldl (autoUnsnoozeStep replies) (M, n) = (M, n) := by
  intro snap
  induction snap with
  | nil => intro M n _; rfl
  | cons a as ih =>
    intro M n h
    rw [List.foldl_cons]
    have ha := h a (List.mem_cons_self a as)
    simp only [autoUnsnoozeStep, if_neg ha]
    exact ih M n (fun sn hsn => h sn (List.mem_cons_of_mem a hsn))

theorem autoUnsnoozeFold_peel (replies : List Reply) :
    ∀ (snap : List Comment) (a : Comment) (M : List Comment) (n : Nat),
      (∀ sn ∈ snap, sn.id ≠ a.id) →
      snap.foldl (autoUnsnoozeStep replies) (a :: M, n) =
        (a :: (snap.foldl (autoUnsnoozeStep replies) (M, n)).1,
          (snap.foldl (autoUnsnoozeStep replies) (M, n)).2) := by
  intro snap
  induction snap with
  | nil => intro a M n _; rfl
  | cons sn rest ih =>
    intro a M n h
    have hne := h sn (List.mem_cons_self sn rest)
    rw [List.foldl_cons, List.foldl_cons]
    by_cases hc : sn.snoozed_reply_count < countReplies replies sn.id
    · simp only [autoUnsnoozeStep, if_pos hc, updateWhere, List.map_cons]
      rw [if_neg (by simpa using fun he : a.id = sn.id => hne he.symm)]
      exact ih a _ _ (fun x hx => h x (List.mem_cons_of_mem sn hx))
    · simp only [autoUnsnoozeStep, if_neg hc]
      exact ih a M n (fun x hx => h x (List.mem_cons_of_mem sn hx))

theorem updateWhere_not_mem (cid : Nat) (g : Comment → Comment) :
    ∀ (L : List Comment), cid ∉ L.map Comment.id → updateWhere L cid g = L := by
  intro L
  induction L with
  | nil => intro _; rfl
  | cons a as ih =>
    intro h
    simp only [List.map_cons, List.mem_cons] at h
    push_neg at h
    simp only [updateWhere, List.map_cons]
    rw [if_neg (by simpa using fun he : a.id = cid => h.1 he.symm)]
    have := ih h.2
    simp only [updateWhere] at this
    rw [this]

theorem autoUnsnoozeFold_main (replies : List Reply) :
    ∀ (L : List Comment) (n : Nat), (L.map Comment.id).Nodup →
      (L.filter (fun c => c.waiting_reply)).foldl (autoUnsnoozeStep replies) (L, n) =
        (L.map (autoUnsnoozeRow replies),
          n + (L.filter (fun c => c.waiting_reply &&
            decide (c.snoozed_reply_count < countReplies replies c.id))).length) := by
  intro L
  induction L with
  | nil => intro n _; rfl
  | cons a as ih =>
    intro n hnodup
    have hnd : (∀ x ∈ as, ¬ x.id = a.id) ∧ (as.map Comment.id).Nodup := by
      simpa using hnodup
    have hmem : a.id ∉ List.map Comment.id as := by
      intro hx
      obtain ⟨x, hx1, hx2⟩ := List.mem_map.mp hx
      exact hnd.1 x hx1 hx2
    have hids : ∀ sn ∈ as.filter (fun c => c.waiting_reply), sn.id ≠ a.id := by
      intro sn hsn he
      exact hnd.1 sn (List.mem_of_mem_filter hsn) he
    by_cases ha : a.waiting_reply
    · rw [List.filter_cons_of_pos (by simpa using ha), List.foldl_cons]
      by_cases hc : a.snoozed_reply_count < countReplies replies a.id
      · have hstep : autoUnsnoozeStep replies (a :: as, n) a =
            (unsnoozeRow a :: as, n + 1) := by
          simp only [autoUnsnoozeStep, if_pos hc, updateWhere, List.map_cons]
          rw [if_pos (by simp)]
          have := updateWhere_not_mem a.id unsnoozeRow as hmem
          simp only [updateWhere] at this
          rw [this]
        rw [hstep]
        rw [autoUnsnoozeFold_peel replies _ _ _ _
          (by simpa [unsnoozeRow] using hids)]
        rw [ih (n + 1) hnd.2]
        simp only [List.map_cons, List.filter_cons, ha, hc]
        simp [autoUnsnoozeRow, ha, hc, Nat.add_assoc, Nat.add_comm 1]
      · have hstep : autoUnsnoozeStep replies (a :: as, n) a = (a :: as, n) := by
          simp only [autoUnsnoozeStep, if_neg hc]
        rw [hstep]
        rw [autoUnsnoozeFold_peel replies _ _ _ _ hids]
        rw [ih n hnd.2]
        simp only [List.map_cons, List.filter_cons, ha, hc]
        simp [autoUnsnoozeRow, ha, hc]
    · rw [List.filter_cons_of_neg (by simpa using ha)]
      rw [autoUnsnoozeFold_peel replies _ _ _ _ hids]
      rw [ih n hnd.2]
      simp only [List.map_cons, List.filter_cons]
      simp [autoUnsnoozeRow, ha]

theorem processAutoUnsnooze_eq_map (s : Store)
    (hnodup : (s.comments.map Comment.id).Nodup) :
    processAutoUnsnooze s =
      ({ comments := s.comments.map (autoUnsnoozeRow s.replies), replies := s.replies },
        (s.comments.filter (fun c => c.waiting_reply &&
          decide (c.snoozed_reply_count < countReplies s.replies c.id))).length) := by
  unfold processAutoUnsnooze getSnoozedComments
  rw [autoUnsnoozeFold_main s.replies s.comments 0 hnodup]
  simp

theorem find?_map_of_nodup (g : Comment → Comment) (hg : ∀ c, (g c).id = c.id) :
    ∀ (L : List Comment) (c : Comment), c ∈ L → (L.map Comment.id).Nodup →
      (L.map g).find? (fun x => x.id == c.id) = some (g c) := by
  intro L
  induction L with
  | nil => intro c hc; cases hc
  | cons a as ih =>
    intro c hc hnodup
    have hnd : (∀ x ∈ as, ¬ x.id = a.id) ∧ (as.map Comment.id).Nodup := by
      simpa using hnodup
    rw [List.map_cons]
    rcases List.mem_cons.mp hc with h | h
    · subst h
      rw [List.find?_cons_of_pos _ (by simp [hg])]
    · have hane : ¬ a.id = c.id := fun he => hnd.1 c h (he ▸ rfl)
      rw [List.find?_cons_of_neg _ (by simp [hg, hane])]
      exact ih c h hnd.2

/-- C3: the auto-unsnooze pass clears a snoozed comment exactly when its
current reply count strictly exceeds the recorded snoozed_reply_count
(setting waiting_reply to false and snoozed_reply_count to 0); when it
does not, the row is completely unchanged and stays snoozed; and
re-running the pass on the resulting store with no new replies changes
nothing and reports zero unsnoozed comments. -/
theorem auto_unsnooze_spec (s : Store)
    (hnodup : (s.comments.map Comment.id).Nodup) :
    (∀ c ∈ s.comments, c.waiting_reply = true →
      findComment (processAutoUnsnooze s).1 c.id =
        some (if c.snoozed_reply_count < getReplyCount s c.id then unsnoozeRow c else c)) ∧
      processAutoUnsnooze (processAutoUnsnooze s).1 = ((processAutoUnsnooze s).1, 0) := by
  have hgid : ∀ c, (autoUnsnoozeRow s.replies c).id = c.id := by
    intro c
    unfold autoUnsnoozeRow unsnoozeRow
    split <;> rfl
  have hchar := processAutoUnsnooze_eq_map s hnodup
  constructor
  · intro c hc hw
    rw [hchar]
    show (s.comments.map (autoUnsnoozeRow s.replies)).find? (fun x => x.id == c.id) = _
    rw [find?_map_of_nodup (autoUnsnoozeRow s.replies) hgid s.comments c hc hnodup]
    unfold autoUnsnoozeRow
    by_cases hlt : c.snoozed_reply_count < countReplies s.replies c.id
    · rw [if_pos (by simp [hw, hlt])]
      rw [if_pos (by simpa [getReplyCount] using hlt)]
    · rw [if_neg (by simp [hw, hlt])]
      rw [if_neg (by simpa [getReplyCount] using hlt)]
  · rw [hchar]
    unfold processAutoUnsnooze getSnoozedComments
    rw [autoUnsnoozeFold_skip]
    intro sn hsn
    obtain ⟨c, hcmem, hceq⟩ := List.mem_map.mp (List.mem_of_mem_filter hsn)
    have hsnw : sn.waiting_reply = true := by simpa using List.of_mem_filter hsn
    by_cases hcc : c.waiting_reply && decide (c.snoozed_reply_count < countReplies s.replies c.id)
    · exfalso
      have : sn.waiting_reply = false := by
        rw [← hceq]
        simp [autoUnsnoozeRow, hcc, unsnoozeRow]
      rw [this] at hsnw
      exact Bool.false_ne_true hsnw
    · have hsneq : sn = c := by rw [← hceq]; simp [autoUnsnoozeRow, hcc]
      subst hsneq
      have hw : sn.waiting_reply = true := hsnw
      intro hlt
      rw [hw] at hcc
      simp only [Bool.true_and, decide_eq_true_eq] at hcc
      exact hcc (by simpa using hlt)

/-- Witness for C3: in the sample store, comment 100 is snoozed with a
recorded count of 1 while two replies exist, so one pass clears it, and
the pass is idempotent. -/
theorem auto_unsnooze_spec_witness :
    (sampleStore.comments.map Comment.id).Nodup ∧
      sampleExisting ∈ sampleStore.comments ∧
      sampleExisting.waiting_reply = true ∧
      findComment (processAutoUnsnooze sampleStore).1 sampleExisting.id =
        some (if sampleExisting.snoozed_reply_count <
            getReplyCount sampleStore sampleExisting.id then
          unsnoozeRow sampleExisting else sampleExisting) ∧
      processAutoUnsnooze (processAutoUnsnooze sampleStore).1 =
        ((processAutoUnsnooze sampleStore).1, 0) := by
  have h := auto_unsnooze_spec sampleStore (by decide)
  exact ⟨by decide, by decide, by decide,
    h.1 sampleExisting (by decide) (by decide), h.2⟩

/-- C4: when the provider answers a resolve mutation with a
NOT_FOUND-classed error (and hence no thread payload), the outcome is
the stale-thread report, never a plain failure and never success, and
the cached thread_id of the comment is cleared to null; any other
mutation failure (no NOT_FOUND error and no successful payload) reports
a plain failure and leaves the store, and so the thread_id, untouched. -/
theorem resolve_stale_thread_spec
    (s : Store) (cid : Nat) (commit : Option String) (e : Comment) (tid : String)
    (respStale respFail : GraphQLResponse)
    (hex : findComment s cid = some e) (htid : e.thread_id = some tid)
    (hne : tid ≠ "")
    (hsThread : respStale.thread = none)
    (hsErr : hasNotFoundError respStale.errors = true)
    (hfErr : hasNotFoundError respFail.errors = false)
    (hfThread : respFail.thread ≠ some true) :
    (resolveComment s cid commit respStale).1 = ResolveOutcome.staleThread ∧
      findComment (resolveComment s cid commit respStale).2 cid =
        some { e with thread_id := none } ∧
      resolveComment s cid commit respFail = (ResolveOutcome.failedMutation, s) := by
  have hmutStale : executeGraphQLMutation tid true respStale = MutationResult.stale := by
    unfold executeGraphQLMutation
    rw [if_neg (by simpa using hne), hsThread, if_pos hsErr]
  have hmutFail : executeGraphQLMutation tid true respFail = MutationResult.failed := by
    unfold executeGraphQLMutation
    rw [if_neg (by simpa using hne)]
    cases ht : respFail.thread with
    | none => simp [hfErr]
    | some b =>
      cases b with
      | true => exact absurd ht hfThread
      | false => simp [hfErr]
  refine ⟨?_, ?_, ?_⟩
  · simp only [resolveComment, hex, htid, hmutStale]
  · simp only [resolveComment, hex, htid, hmutStale]
    show findComment (clearStaleThreadId s cid) cid = _
    unfold clearStaleThreadId findComment
    have := find?_updateWhere_self s.comments cid (fun c => { c with thread_id := none })
      (fun c hc => by simpa using hc)
    rw [this]
    unfold findComment at hex
    rw [hex]
    rfl
  · simp only [resolveComment, hex, htid, hmutFail]

/-- Witness for C4: resolving comment 100 whose cached thread is T1
against a NOT_FOUND response reports staleness and clears the thread id,
while a generic failure response leaves the store unchanged. -/
theorem resolve_stale_thread_spec_witness :
    findComment sampleStore 100 = some sampleExisting ∧
      sampleExisting.thread_id = some "T1" ∧
      (resolveComment sampleStore 100 (some "abc") staleResponse).1 =
        ResolveOutcome.staleThread ∧
      findComment (resolveComment sampleStore 100 (some "abc") staleResponse).2 100 =
        some { sampleExisting with thread_id := none } ∧
      resolveComment sampleStore 100 (some "abc") failResponse =
        (ResolveOutcome.failedMutation, sampleStore) := by
  have h := resolve_stale_thread_spec sampleStore 100 (some "abc") sampleExisting "T1"
    staleResponse failResponse (by decide) (by decide) (by decide) (by decide)
    (by decide) (by decide) (by decide)
  exact ⟨by decide, by decide, h.1, h.2.1, h.2.2⟩

/-- C5: a resolve or unresolve action on a comment whose thread_id is
null reports the missing-thread-id failure with exit status 1 and leaves
the store unchanged, whatever the provider would have answered: the
result does not depend on the response, so no mutation outcome is ever
consulted. -/
theorem missing_thread_id_aborts
    (s : Store) (cid : Nat) (e : Comment)
    (hex : findComment s cid = some e) (htid : e.thread_id = none) :
    (∀ commit resp, resolveComment s cid commit resp =
        (ResolveOutcome.missingThreadId, s)) ∧
      (∀ resp, unresolveComment s cid resp = (ResolveOutcome.missingThreadId, s)) ∧
      resolveExitCode ResolveOutcome.missingThreadId = 1 := by
  refine ⟨?_, ?_, rfl⟩
  · intro commit resp
    simp only [resolveComment, hex, htid]
  · intro resp
    simp only [unresolveComment, hex, htid]

/-- Witness for C5: comment 200 has a null thread_id, so resolve and
unresolve abort with the missing-thread-id outcome and exit status 1,
leaving the store unchanged even for a response that would have
succeeded. -/
theorem missing_thread_id_aborts_witness :
    findComment sampleStoreNoThread 200 = some sampleNoThread ∧
      sampleNoThread.thread_id = none ∧
      resolveComment sampleStoreNoThread 200 (some "abc")
          { thread := some true, errors := [] } =
        (ResolveOutcome.missingThreadId, sampleStoreNoThread) ∧
      unresolveComment sampleStoreNoThread 200 { thread := some false, errors := [] } =
        (ResolveOutcome.missingThreadId, sampleStoreNoThread) ∧
      resolveExitCode ResolveOutcome.missingThreadId = 1 := by
  have h := missing_thread_id_aborts sampleStoreNoThread 200 sampleNoThread
    (by decide) (by decide)
  exact ⟨by decide, by decide,
    h.1 (some "abc") { thread := some true, errors := [] },
    h.2.1 { thread := some false, errors := [] }, h.2.2⟩

theorem findMarkerValue_unknown (markers : List (String × String)) (line : String)
    (h : ∀ p ∈ markers, strContains line p.1 = false) :
    findMarkerValue markers line = "unknown" := by
  unfold findMarkerValue
  have hf : markers.find? (fun p => strContains line p.1) = none :=
    List.find?_eq_none.mpr (fun x hx => by simp [h x hx])
  rw [hf]

theorem findMarkerValue_of_unique (markers : List (String × String)) (line m v : String)
    (hmem : (m, v) ∈ markers) (hc : strContains line m = true)
    (huniq : ∀ p ∈ markers, strContains line p.1 = true → p = (m, v)) :
    findMarkerValue markers line = v := by
  unfold findMarkerValue
  cases hf : markers.find? (fun p => strContains line p.1) with
  | none =>
    exfalso
    have := List.find?_eq_none.mp hf (m, v) hmem
    simp [hc] at this
  | some p =>
    have hp1 : strContains line p.1 = true := by
      have := List.find?_some hf
      simpa using this
    have hp2 : p ∈ markers := List.mem_of_find?_eq_some hf
    rw [huniq p hp2 hp1]

/-- C6: priority and severity are parsed from the first line of the
body only.  A body whose first line contains none of the known priority
markers and none of the known severity markers parses to unknown for
both, no matter what the remaining lines contain; and a body whose first
line contains exactly one known priority marker (or severity marker)
parses to the value that marker maps to. -/
theorem parse_markers_first_line_only
    (bodyA bodyB bodyC : String) (m v ms vs : String)
    (hA1 : ∀ p ∈ PRIORITY_MARKERS, strContains (firstLine bodyA) p.1 = false)
    (hA2 : ∀ p ∈ SEVERITY_MARKERS, strContains (firstLine bodyA) p.1 = false)
    (hBmem : (m, v) ∈ PRIORITY_MARKERS)
    (hBc : strContains (firstLine bodyB) m = true)
    (hBuniq : ∀ p ∈ PRIORITY_MARKERS, strContains (firstLine bodyB) p.1 = true → p = (m, v))
    (hCmem : (ms, vs) ∈ SEVERITY_MARKERS)
    (hCc : strContains (firstLine bodyC) ms = true)
    (hCuniq : ∀ p ∈ SEVERITY_MARKERS, strContains (firstLine bodyC) p.1 = true → p = (ms, vs)) :
    parseComment bodyA = ("unknown", "unknown") ∧
      (parseComment bodyB).1 = v ∧
      (parseComment bodyC).2 = vs := by
  refine ⟨?_, ?_, ?_⟩
  · unfold parseComment
    rw [findMarkerValue_unknown _ _ hA1, findMarkerValue_unknown _ _ hA2]
  · unfold parseComment
    exact findMarkerValue_of_unique _ _ m v hBmem hBc hBuniq
  · unfold parseComment
    exact findMarkerValue_of_unique _ _ ms vs hCmem hCc hCuniq

/-- Witness for C6: a body whose markers sit only on its second line
parses to unknown for both fields, while first lines carrying the
Potential-issue marker or the Critical marker parse to issue and
critical respectively. -/
theorem parse_markers_first_line_only_witness :
    parseComment "plain text line\n⚠️ Potential issue 🔴 Critical" =
        ("unknown", "unknown") ∧
      (parseComment "⚠️ Potential issue: null check missing").1 = "issue" ∧
      (parseComment "**🔴 Critical** data loss").2 = "critical" := by
  have h := parse_markers_first_line_only
    "plain text line\n⚠️ Potential issue 🔴 Critical"
    "⚠️ Potential issue: null check missing"
    "**🔴 Critical** data loss"
    "⚠️ Potential issue" "issue" "🔴 Critical" "critical"
    (by decide) (by decide) (by decide) (by decide) (by decide)
    (by decide) (by decide) (by decide)
  exact h

theorem length_insertByPath (c : Comment) :
    ∀ l : List Comment, (insertByPath c l).length = l.length + 1 := by
  intro l
  induction l with
  | nil => rfl
  | cons x xs ih =>
    simp only [insertByPath]
    split
    · simp
    · simp [ih]

theorem length_orderByPath : ∀ l : List Comment, (orderByPath l).length = l.length := by
  intro l
  induction l with
  | nil => rfl
  | cons x xs ih => simp [orderByPath, length_insertByPath, ih]

/-- C7: the post-sync summary contains the critical preview block
exactly when at least one pending critical comment exists; the preview
lists at most five items (exactly the smaller of five and the pending
critical total), and it carries the count of items beyond the cap
exactly when the total exceeds five. -/
theorem critical_preview_spec (s : Store) :
    ((printFetchSummary s).isSome ↔
        0 < (s.comments.filter isPendingCritical).length) ∧
      ∀ p, printFetchSummary s = some p →
        p.total = (s.comments.filter isPendingCritical).length ∧
        p.items.length = min 5 p.total ∧
        (5 < p.total → p.moreNote = some (p.total - 5)) ∧
        (p.total ≤ 5 → p.moreNote = none) := by
  constructor
  · unfold printFetchSummary
    by_cases h : 0 < (s.comments.filter isPendingCritical).length
    · simp [h]
    · simp [h]
  · intro p hp
    unfold printFetchSummary at hp
    by_cases h : 0 < (s.comments.filter isPendingCritical).length
    · rw [if_pos h] at hp
      have hpe := (Option.some_inj.mp hp).symm
      subst hpe
      refine ⟨rfl, ?_, ?_, ?_⟩
      · simp [printCriticalPreview, List.length_take, length_orderByPath]
      · intro h5
        simp only [printCriticalPreview] at h5 ⊢
        rw [if_pos h5]
      · intro h5
        simp only [printCriticalPreview] at h5 ⊢
        rw [if_neg (by omega)]
    · rw [if_neg h] at hp
      cases hp

/-- Witness for C7: with six pending critical comments the preview is
present, shows five items, and notes one more beyond the cap. -/
theorem critical_preview_spec_witness :
    printFetchSummary criticalStore = some (printCriticalPreview criticalStore 6) ∧
      (printCriticalPreview criticalStore 6).items.length = 5 ∧
      (printCriticalPreview criticalStore 6).moreNote = some 1 ∧
      ((printCriticalPreview criticalStore 6).total =
          (criticalStore.comments.filter isPendingCritical).length ∧
        (printCriticalPreview criticalStore 6).items.length =
          min 5 (printCriticalPreview criticalStore 6).total ∧
        (5 < (printCriticalPreview criticalStore 6).total →
          (printCriticalPreview criticalStore 6).moreNote =
            some ((printCriticalPreview criticalStore 6).total - 5)) ∧
        ((printCriticalPreview criticalStore 6).total ≤ 5 →
          (printCriticalPreview criticalStore 6).moreNote = none)) :=
  ⟨by decide, by decide, by decide,
    (critical_preview_spec criticalStore).2 (printCriticalPreview criticalStore 6)
      (by decide)⟩

/-- C8: for an unresolved comment over an existing file, the verify
command flags the file as likely addressed exactly when its modification
time is strictly after the parsed first_seen time, and the reported gap
is in floored minutes when the raw gap is under sixty minutes and in
floored whole hours otherwise. -/
theorem verify_outdated_modification_spec
    (s : Store) (cid : Nat) (e : Comment) (pt : String → Nat) (mtime : Nat)
    (hex : findComment s cid = some e) (hres : e.github_resolved = false) :
    verifyOutdated s true (some mtime) pt cid =
        VerifyResult.checked (classifyModification (some mtime) (pt e.first_seen)) ∧
      ∀ fs mm : Nat,
        ((∃ g, classifyModification (some mm) fs = ModFlag.likelyAddressed g) ↔ fs < mm) ∧
        (fs < mm → classifyModification (some mm) fs =
          ModFlag.likelyAddressed (if mm - fs < 3600000 then
            TimeGap.minutes ((mm - fs) / 60000)
          else TimeGap.hours ((mm - fs) / 3600000))) := by
  constructor
  · simp only [verifyOutdated, hex, hres]
    simp
  · intro fs mm
    constructor
    · constructor
      · rintro ⟨g, hg⟩
        by_contra h
        simp only [classifyModification] at hg
        rw [if_neg h] at hg
        exact ModFlag.noConfusion hg
      · intro h
        simp only [classifyModification]
        rw [if_pos h]
        exact ⟨_, rfl⟩
    · intro h
      simp only [classifyModification]
      rw [if_pos h]
      show ModFlag.likelyAddressed (if (mm - fs) / 1000 / 60 < 60 then
          TimeGap.minutes ((mm - fs) / 1000 / 60)
        else TimeGap.hours ((mm - fs) / 1000 / 60 / 60)) = _
      have hdiv : (mm - fs) / 1000 / 60 = (mm - fs) / 60000 := by
        rw [Nat.div_div_eq_div_mul]
      have hcond : ((mm - fs) / 1000 / 60 < 60) ↔ (mm - fs < 3600000) := by
        rw [hdiv, Nat.div_lt_iff_lt_mul (by norm_num)]
      by_cases hlt : mm - fs < 3600000
      · rw [if_pos (hcond.mpr hlt), if_pos hlt, hdiv]
      · rw [if_neg (fun hh => hlt (hcond.mp hh)), if_neg hlt]
        have hdiv2 : (mm - fs) / 1000 / 60 / 60 = (mm - fs) / 3600000 := by
          rw [hdiv, Nat.div_div_eq_div_mul]
        rw [hdiv2]

/-- Witness for C8: comment 100 is unresolved, its file exists and was
modified ninety minutes after first_seen under the sample clock, so
verify reports a likely-addressed flag of one whole hour. -/
theorem verify_outdated_modification_spec_witness :
    findComment sampleStore 100 = some sampleExisting ∧
      sampleExisting.github_resolved = false ∧
      verifyOutdated sampleStore true (some 5400000) (fun _ => 0) 100 =
        VerifyResult.checked (ModFlag.likelyAddressed (TimeGap.hours 1)) ∧
      verifyOutdated sampleStore true (some 5400000) (fun _ => 0) 100 =
        VerifyResult.checked (classifyModification (some 5400000)
          ((fun _ => 0) sampleExisting.first_seen)) ∧
      ∀ fs mm : Nat,
        ((∃ g, classifyModification (some mm) fs = ModFlag.likelyAddressed g) ↔ fs < mm) ∧
        (fs < mm → classifyModification (some mm) fs =
          ModFlag.likelyAddressed (if mm - fs < 3600000 then
            TimeGap.minutes ((mm - fs) / 60000)
          else TimeGap.hours ((mm - fs) / 3600000))) := by
  have h := verify_outdated_modification_spec sampleStore 100 sampleExisting
    (fun _ => 0) 5400000 (by decide) (by decide)
  exact ⟨by decide, by decide, by decide, h.1, h.2⟩

theorem mapSet_of_not_mem (m : List (Nat × ThreadInfo)) (k : Nat) (v : ThreadInfo)
    (h : ∀ p ∈ m, ¬ p.1 = k) : mapSet m k v = m ++ [(k, v)] := by
  have hany : m.any (fun p => p.1 == k) = false := by
    rw [List.any_eq_false]
    intro p hp
    simpa using h p hp
  unfold mapSet
  rw [hany]
  simp

theorem threadFold_inner (t : ReviewThread) :
    ∀ (cs : List ThreadComment) (m : List (Nat × ThreadInfo)),
      (∀ p ∈ m, p.1 ∉ cs.map (fun c => c.databaseId)) →
      (cs.map (fun c => c.databaseId)).Nodup →
      cs.foldl (fun acc2 c => mapSet acc2 c.databaseId
          { threadId := some t.id, isResolved := t.isResolved,
            isOutdated := c.outdated }) m =
        m ++ cs.map (fun c => (c.databaseId,
          { threadId := some t.id, isResolved := t.isResolved,
            isOutdated := c.outdated : ThreadInfo })) := by
  intro cs
  induction cs with
  | nil => intro m _ _; simp
  | cons c rest ih =>
    intro m hdisj hnd
    have hnd2 : (∀ x ∈ rest, ¬ x.databaseId = c.databaseId) ∧
        (rest.map (fun c => c.databaseId)).Nodup := by simpa using hnd
    rw [List.foldl_cons]
    rw [mapSet_of_not_mem m c.databaseId _
      (fun p hp he => hdisj p hp (by simp [he]))]
    rw [ih (m ++ [(c.databaseId, _)]) ?_ hnd2.2]
    · simp
    · intro p hp
      rcases List.mem_append.mp hp with hpm | hpc
      · intro hmem
        exact hdisj p hpm (by simp; right; simpa using hmem)
      · simp only [List.mem_singleton] at hpc
        subst hpc
        intro hmem
        obtain ⟨x, hx1, hx2⟩ := List.mem_map.mp hmem
        exact hnd2.1 x hx1 (by simpa using hx2)

theorem threadFold_outer :
    ∀ (threads : List ReviewThread) (m : List (Nat × ThreadInfo)),
      (∀ p ∈ m, p.1 ∉ (threads.map (fun t => t.comments.map
        (fun c => c.databaseId))).flatten) →
      ((threads.map (fun t => t.comments.map (fun c => c.databaseId))).flatten).Nodup →
      threads.foldl
          (fun acc t => t.comments.foldl
            (fun acc2 c => mapSet acc2 c.databaseId
              { threadId := some t.id, isResolved := t.isResolved,
                isOutdated := c.outdated }) acc) m =
        m ++ flatEntries threads := by
  intro threads
  induction threads with
  | nil => intro m _ _; simp [flatEntries]
  | cons t rest ih =>
    intro m hdisj hnd
    simp only [List.map_cons, List.flatten_cons] at hdisj hnd
    have hnd3 := List.nodup_append.mp hnd
    rw [List.foldl_cons]
    rw [threadFold_inner t t.comments m
      (fun p hp hmem => hdisj p hp (List.mem_append.mpr (Or.inl hmem))) hnd3.1]
    rw [ih (m ++ _) ?_ hnd3.2.1]
    · simp [flatEntries]
    · intro p hp
      rcases List.mem_append.mp hp with hpm | hpe
      · exact fun hmem => hdisj p hpm (List.mem_append.mpr (Or.inr hmem))
      · obtain ⟨x, hx1, hx2⟩ := List.mem_map.mp hpe
        intro hmem
        have hin : p.1 ∈ t.comments.map (fun c => c.databaseId) := by
          rw [← hx2]
          exact List.mem_map_of_mem _ hx1
        exact hnd3.2.2 hin hmem

theorem fetchThreadMetadata_eq_flat (threads : List ReviewThread)
    (hnodup : ((threads.map (fun t => t.comments.map
      (fun c => c.databaseId))).flatten).Nodup) :
    fetchThreadMetadata threads = flatEntries threads := by
  unfold fetchThreadMetadata
  rw [threadFold_outer threads [] (by simp) hnodup]
  simp

theorem resolvedCount_entries (t : ReviewThread) :
    ∀ cs : List ThreadComment,
      resolvedCount (cs.map (fun c => (c.databaseId,
        { threadId := some t.id, isResolved := t.isResolved,
          isOutdated := c.outdated : ThreadInfo }))) =
        if t.isResolved then cs.length else 0 := by
  intro cs
  induction cs with
  | nil => cases t.isResolved <;> rfl
  | cons c rest ih =>
    cases ht : t.isResolved with
    | true =>
      simp only [resolvedCount, List.map_cons, List.filter_cons] at ih ⊢
      simp [ht] at ih ⊢
      omega
    | false =>
      simp only [resolvedCount, List.map_cons, List.filter_cons] at ih ⊢
      simp [ht] at ih ⊢
      try exact ih

theorem outdatedCount_entries (t : ReviewThread) :
    ∀ cs : List ThreadComment,
      outdatedCount (cs.map (fun c => (c.databaseId,
        { threadId := some t.id, isResolved := t.isResolved,
          isOutdated := c.outdated : ThreadInfo }))) =
        (cs.filter (fun c => c.outdated)).length := by
  intro cs
  induction cs with
  | nil => rfl
  | cons c rest ih =>
    cases hc : c.outdated with
    | true =>
      simp only [outdatedCount, List.map_cons, List.filter_cons] at ih ⊢
      simp [hc] at ih ⊢
      exact ih
    | false =>
      simp only [outdatedCount, List.map_cons, List.filter_cons] at ih ⊢
      simp [hc] at ih ⊢
      exact ih

theorem resolvedCount_flat :
    ∀ threads : List ReviewThread,
      resolvedCount (flatEntries threads) =
        (threads.map (fun t => if t.isResolved then t.comments.length else 0)).sum := by
  intro threads
  induction threads with
  | nil => rfl
  | cons t rest ih =>
    have h1 := resolvedCount_entries t t.comments
    simp only [flatEntries, List.map_cons, List.flatten_cons] at ih ⊢
    simp only [resolvedCount, List.filter_append, List.length_append] at h1 ih ⊢
    rw [h1, ih, List.sum_cons]

theorem outdatedCount_flat :
    ∀ threads : List ReviewThread,
      outdatedCount (flatEntries threads) =
        (threads.map (fun t => (t.comments.filter (fun c => c.outdated)).length)).sum := by
  intro threads
  induction threads with
  | nil => rfl
  | cons t rest ih =>
    have h1 := outdatedCount_entries t t.comments
    simp only [flatEntries, List.map_cons, List.flatten_cons] at ih ⊢
    simp only [outdatedCount, List.filter_append, List.length_append] at h1 ih ⊢
    rw [h1, ih, List.sum_cons]

/-- Counterexample for C9: for one resolved thread covering two
comments and one unresolved thread, the threads-resolved figure of the
fetch summary is 2, the number of comment entries whose thread is
resolved, while the number of distinct resolved threads is 1, so the
figure does not count distinct threads. -/
theorem resolved_count_counterexample :
    resolvedCount (fetchThreadMetadata sampleThreads) = 2 ∧
      distinctResolvedThreads (fetchThreadMetadata sampleThreads) = 1 ∧
      ¬ resolvedCount (fetchThreadMetadata sampleThreads) =
          distinctResolvedThreads (fetchThreadMetadata sampleThreads) := by
  refine ⟨by decide, by decide, by decide⟩

/-- C9 amended: when the fetched comment ids are pairwise distinct, the
threads-resolved figure equals the number of comment entries of the
metadata whose owning thread is resolved, that is, every resolved thread
is counted once per comment it covers rather than once per distinct
thread; the threads-outdated figure equals the number of outdated
comment entries of the metadata, as the claim states. -/
theorem fetch_metadata_counts (threads : List ReviewThread)
    (hnodup : ((threads.map (fun t => t.comments.map
      (fun c => c.databaseId))).flatten).Nodup) :
    resolvedCount (fetchThreadMetadata threads) =
        (threads.map (fun t => if t.isResolved then t.comments.length else 0)).sum ∧
      outdatedCount (fetchThreadMetadata threads) =
        (threads.map (fun t => (t.comments.filter (fun c => c.outdated)).length)).sum := by
  rw [fetchThreadMetadata_eq_flat threads hnodup]
  exact ⟨resolvedCount_flat threads, outdatedCount_flat threads⟩

/-- Witness for the amended C9: on the sample threads all three comment
ids are distinct, the resolved thread T1 contributes its two comments to
the threads-resolved figure, and the two outdated comment entries give
the threads-outdated figure. -/
theorem fetch_metadata_counts_witness :
    ((sampleThreads.map (fun t => t.comments.map
        (fun c => c.databaseId))).flatten).Nodup ∧
      (resolvedCount (fetchThreadMetadata sampleThreads) =
          (sampleThreads.map (fun t => if t.isResolved then t.comments.length else 0)).sum ∧
        outdatedCount (fetchThreadMetadata sampleThreads) =
          (sampleThreads.map (fun t =>
            (t.comments.filter (fun c => c.outdated)).length)).sum) :=
  ⟨by decide, fetch_metadata_counts sampleThreads (by decide)⟩

theorem snoozeInvList_updateWhere (L : List Comment) (cid : Nat) (g : Comment → Comment)
    (h : ∀ c ∈ L, c.waiting_reply = false → c.snoozed_reply_count = 0)
    (hg : ∀ c ∈ L, (g c).waiting_reply = false → (g c).snoozed_reply_count = 0) :
    ∀ x ∈ updateWhere L cid g, x.waiting_reply = false → x.snoozed_reply_count = 0 := by
  intro x hx
  obtain ⟨c, hc, hxe⟩ := List.mem_map.mp hx
  subst hxe
  by_cases hid : (c.id == cid) = true
  · simpa [hid] using hg c hc
  · simpa [hid] using h c hc

theorem snoozeInvList_fold (replies : List Reply) :
    ∀ (snap M : List Comment) (n : Nat),
      (∀ c ∈ M, c.waiting_reply = false → c.snoozed_reply_count = 0) →
      ∀ x ∈ (snap.foldl (autoUnsnoozeStep replies) (M, n)).1,
        x.waiting_reply = false → x.snoozed_reply_count = 0 := by
  intro snap
  induction snap with
  | nil => intro M n h; exact h
  | cons sn rest ih =>
    intro M n h
    rw [List.foldl_cons]
    unfold autoUnsnoozeStep
    split
    · exact ih _ _ (snoozeInvList_updateWhere M sn.id unsnoozeRow h
        (fun c hc _ => by simp [unsnoozeRow]))
    · exact ih M n h

theorem upsertComment_comments (s : Store) (c : FetchedComment)
    (tinfo : Option ThreadInfo) (now : String) :
    (upsertComment s c tinfo now).1.comments =
      match findComment s c.id with
      | some _ => updateWhere s.comments c.id
          (fun _ => upsertRow (findComment s c.id) c tinfo now)
      | none => s.comments ++ [upsertRow (findComment s c.id) c tinfo now] := by
  unfold upsertComment
  cases findComment s c.id <;> rfl

/-- C10: every operation preserves the invariant that a comment with
waiting_reply false has snoozed_reply_count zero.  A fresh insert
defaults both to their zero values and a re-upsert carries both forward
from the same existing row; replies do not touch the comments table;
snoozing sets waiting_reply together with the recorded count; the manual
unsnooze, the unsnooze-all sweep and the auto-unsnooze pass reset the
count to zero in the same statement that clears waiting_reply; and the
single-field updates of notes, resolved_commit and thread_id leave the
pair alone. -/
theorem snooze_invariant_preserved (s : Store) (h : SnoozeInvariant s) :
    (∀ c tinfo now, SnoozeInvariant (upsertComment s c tinfo now).1) ∧
      (∀ r, SnoozeInvariant (upsertReply s r)) ∧
      (∀ cid, SnoozeInvariant (snoozeComment s cid)) ∧
      (∀ cid, SnoozeInvariant (unsnoozeComment s cid)) ∧
      SnoozeInvariant (unsnoozeAll s) ∧
      (∀ cid v, SnoozeInvariant (updateNotes s cid v)) ∧
      (∀ cid v, SnoozeInvariant (setResolvedCommit s cid v)) ∧
      (∀ cid, SnoozeInvariant (clearStaleThreadId s cid)) ∧
      SnoozeInvariant (processAutoUnsnooze s).1 := by
  refine ⟨?_, ?_, ?_, ?_, ?_, ?_, ?_, ?_, ?_⟩
  · intro c tinfo now
    intro x hx
    rw [upsertComment_comments] at hx
    cases hex : findComment s c.id with
    | some e =>
      simp only [hex] at hx
      refine snoozeInvList_updateWhere s.comments c.id _ h ?_ x hx
      intro c0 hc0 hw
      have he : e ∈ s.comments := List.mem_of_find?_eq_some hex
      simp only [upsertRow, hex, Option.map_some, Option.getD] at hw ⊢
      exact h e he (by simpa using hw)
    | none =>
      simp only [hex] at hx
      rcases List.mem_append.mp hx with hxm | hxr
      · exact h x hxm
      · simp only [List.mem_singleton] at hxr
        subst hxr
        intro _
        simp [upsertRow, hex]
  · intro r
    intro x hx
    exact h x hx
  · intro cid
    simp only [SnoozeInvariant, snoozeComment]
    refine snoozeInvList_updateWhere s.comments cid _ h ?_
    intro c0 hc0 hw
    simp at hw
  · intro cid
    simp only [SnoozeInvariant, unsnoozeComment]
    refine snoozeInvList_updateWhere s.comments cid unsnoozeRow h ?_
    intro c0 hc0 _
    simp [unsnoozeRow]
  · intro x hx
    obtain ⟨c, hc, hxe⟩ := List.mem_map.mp hx
    subst hxe
    by_cases hw : c.waiting_reply = true
    · intro _
      simp [hw, unsnoozeRow]
    · have hwf : c.waiting_reply = false := by
        revert hw
        cases c.waiting_reply <;> simp
      intro _
      simp only [hwf, Bool.false_eq_true, if_false]
      exact h c hc hwf
  · intro cid v
    simp only [SnoozeInvariant, updateNotes]
    refine snoozeInvList_updateWhere s.comments cid _ h ?_
    intro c0 hc0 hw
    simpa using h c0 hc0 (by simpa using hw)
  · intro cid v
    simp only [SnoozeInvariant, setResolvedCommit]
    refine snoozeInvList_updateWhere s.comments cid _ h ?_
    intro c0 hc0 hw
    simpa using h c0 hc0 (by simpa using hw)
  · intro cid
    simp only [SnoozeInvariant, clearStaleThreadId]
    refine snoozeInvList_updateWhere s.comments cid _ h ?_
    intro c0 hc0 hw
    simpa using h c0 hc0 (by simpa using hw)
  · simp only [SnoozeInvariant, processAutoUnsnooze]
    exact snoozeInvList_fold s.replies _ s.comments 0 h

/-- Witness for C10: the sample store satisfies the invariant, and so
do the stores produced by each operation applied to it. -/
theorem snooze_invariant_preserved_witness :
    SnoozeInvariant sampleStore ∧
      (SnoozeInvariant (upsertComment sampleStore sampleFetched
          (some sampleThreadInfo) "2024-02-01T00:00:00Z").1 ∧
        SnoozeInvariant (upsertReply sampleStore (sampleReply 9)) ∧
        SnoozeInvariant (snoozeComment sampleStore 100) ∧
        SnoozeInvariant (unsnoozeComment sampleStore 100) ∧
        SnoozeInvariant (unsnoozeAll sampleStore) ∧
        SnoozeInvariant (updateNotes sampleStore 100 (some "note")) ∧
        SnoozeInvariant (setResolvedCommit sampleStore 100 (some "abc")) ∧
        SnoozeInvariant (clearStaleThreadId sampleStore 100) ∧
        SnoozeInvariant (processAutoUnsnooze sampleStore).1) := by
  have hinv : SnoozeInvariant sampleStore := by
    intro c hc
    simp only [sampleStore, List.mem_singleton] at hc
    subst hc
    intro hw
    simp [sampleExisting] at hw
  have h := snooze_invariant_preserved sampleStore hinv
  exact ⟨hinv, h.1 sampleFetched (some sampleThreadInfo) "2024-02-01T00:00:00Z",
    h.2.1 (sampleReply 9), h.2.2.1 100, h.2.2.2.1 100, h.2.2.2.2.1,
    h.2.2.2.2.2.1 100 (some "note"), h.2.2.2.2.2.2.1 100 (some "abc"),
    h.2.2.2.2.2.2.2.1 100, h.2.2.2.2.2.2.2.2⟩
